import Mathlib

/-!
Verification of the hexamine hex dump tool (src/main.rs).

The embedding below models the three parts of the program that the
properties concern: the origin parser (`from_str_radix16` / `parse_hex`,
mirroring Rust's `usize::from_str_radix(s, 16)` and the wrapper that
prints a diagnostic), the line formatter (`print_buffer`, built from
`hexSlots` for the hex slot loop and `asciiPart` for the ASCII column),
and the byte stream drive loop (`driveLoop`), together with the `main`
control flow (`runMain`).

Machine integers are modelled as `Nat`; the 16 bit display mask
`line_addr & 0xFFFF` is modelled as `% 65536`, and the `usize`
overflow check of `from_str_radix` as a comparison with `2 ^ 64 - 1`.
Indexing into the line buffer is modelled with `List.get?`, so the
formatter returns `Option String` and an out of bounds access would
surface as `none`.
-/

namespace Hexam

/-- Layout configuration, mirroring `struct LineFormat` in main.rs. -/
structure LineFormat where
  bytes_per_line : Nat
  bytes_per_segment : Nat
  left_padding : Nat
  show_ascii : Bool
  deriving Repr, DecidableEq

def STD_BYTES_PER_LINE : Nat := 16
def STD_BYTES_PER_SEGMENT : Nat := 8
def WOZ_BYTES_PER_LINE : Nat := 8
def WOZ_BYTES_PER_SEGMENT : Nat := 0

/-- Uppercase hexadecimal digit character for a value below 16
(mirrors the `X` format specifier digit rendering). -/
def hexDigit (n : Nat) : Char :=
  if n < 10 then Char.ofNat (48 + n) else Char.ofNat (55 + n)

/-- Two digit zero padded uppercase hex rendering of a byte,
mirroring `format!(" {:02X}", b)` minus the leading space. -/
def hex2 (b : Nat) : String :=
  String.mk [hexDigit (b / 16 % 16), hexDigit (b % 16)]

/-- Four digit zero padded uppercase hex rendering of a 16 bit value,
mirroring `format!("{:04X}", a)` for `a < 0x10000`. -/
def hex4 (a : Nat) : String :=
  String.mk [hexDigit (a / 4096 % 16), hexDigit (a / 256 % 16),
             hexDigit (a / 16 % 16), hexDigit (a % 16)]

/-- Rust's `ParseIntError` kinds that `usize::from_str_radix` can produce. -/
inductive ParseIntError where
  | empty
  | invalidDigit
  | posOverflow
  | negOverflow
  deriving Repr, DecidableEq

/-- Display text of each `ParseIntError`, as printed by `{error}`. -/
def ParseIntError.describe : ParseIntError → String
  | .empty => "cannot parse integer from empty string"
  | .invalidDigit => "invalid digit found in string"
  | .posOverflow => "number too large to fit in target type"
  | .negOverflow => "number too small to fit in target type"

/-- Value of a hexadecimal digit character, `none` for non hex characters
(mirrors `char::to_digit(16)`). -/
def hexDigitVal (c : Char) : Option Nat :=
  if '0' ≤ c ∧ c ≤ '9' then some (c.toNat - 48)
  else if 'a' ≤ c ∧ c ≤ 'f' then some (c.toNat - 87)
  else if 'A' ≤ c ∧ c ≤ 'F' then some (c.toNat - 55)
  else none

def USIZE_MAX : Nat := 2 ^ 64 - 1

/-- Digit accumulation loop of `usize::from_str_radix(s, 16)` for a
non negative number: checked multiply by the radix and checked add. -/
def accumHex : List Char → Nat → Except ParseIntError Nat
  | [], acc => .ok acc
  | c :: cs, acc =>
    match hexDigitVal c with
    | none => .error .invalidDigit
    | some d =>
      if acc * 16 + d ≤ USIZE_MAX then accumHex cs (acc * 16 + d)
      else .error .posOverflow

/-- Model of `usize::from_str_radix(s, 16)`: an optional leading `+`
sign (a lone sign is an invalid digit), then hex digits accumulated with
overflow checking against `usize`.  The minus sign arm of
`from_str_radix` is guarded on the target type being signed, so for
`usize` a leading `-` is not treated as a sign: it reaches the digit
loop and fails there as an invalid digit. -/
def from_str_radix16 (s : String) : Except ParseIntError Nat :=
  match s.data with
  | [] => .error .empty
  | c :: cs =>
    if c = '+' then
      (if cs.isEmpty then .error .invalidDigit else accumHex cs 0)
    else accumHex (c :: cs) 0

/-- Diagnostic line printed by `parse_hex` on failure. -/
def errLine (s : String) (e : ParseIntError) : String :=
  "Invalid hexadecimal value \"" ++ s ++ "\": " ++ e.describe

/-- Model of `parse_hex`: the parse result together with the lines it
writes to the diagnostic stream. -/
def parse_hex (s : String) : Except ParseIntError Nat × List String :=
  match from_str_radix16 s with
  | .ok x => (.ok x, [])
  | .error e => (.error e, [errLine s e])

/-- Hex slot loop of `print_buffer` (`for pos in 0..fmt.bytes_per_line`),
as a recursion on the number of remaining positions `r`, with `pos` the
current position and `i` the cursor into the byte buffer.  Returns `none`
if the buffer is ever indexed out of bounds. -/
def hexSlots (fmt : LineFormat) (bytes : List Nat) : Nat → Nat → Nat → Option String
  | 0, _, _ => some ""
  | r + 1, pos, i =>
    let seg := if 0 < fmt.bytes_per_segment ∧ pos % fmt.bytes_per_segment = 0
               then " " else ""
    if pos < fmt.left_padding ∨ (fmt.show_ascii = true ∧ bytes.length ≤ i) then
      Option.map (fun rest => seg ++ "   " ++ rest) (hexSlots fmt bytes r (pos + 1) i)
    else if i < bytes.length then
      match bytes.get? i with
      | none => none
      | some b =>
        Option.map (fun rest => seg ++ " " ++ hex2 b ++ rest)
          (hexSlots fmt bytes r (pos + 1) (i + 1))
    else
      Option.map (fun rest => seg ++ rest) (hexSlots fmt bytes r (pos + 1) i)

/-- Character shown in the ASCII column for one byte:
the byte itself when `0x20 <= b < 0x7F`, otherwise a dot. -/
def asciiChar (b : Nat) : Char :=
  if 0x20 ≤ b ∧ b < 0x7F then Char.ofNat b else '.'

/-- ASCII column of `print_buffer`: `left_padding + 2` separator spaces
followed by one character per real byte; empty when `show_ascii` is off. -/
def asciiPart (fmt : LineFormat) (bytes : List Nat) : String :=
  if fmt.show_ascii then
    String.mk (List.replicate (fmt.left_padding + 2) ' ') ++
      String.mk (bytes.map asciiChar)
  else ""

/-- Model of `print_buffer`: the full text of one output line, or `none`
on an out of bounds buffer access.  The address header applies the 16 bit
display mask (`& 0xFFFF`, i.e. `% 65536`). -/
def print_buffer (bytes : List Nat) (line_addr : Nat) (fmt : LineFormat) : Option String :=
  match hexSlots fmt bytes fmt.bytes_per_line 0 0 with
  | none => none
  | some hexes => some (hex4 (line_addr % 65536) ++ ":" ++ hexes ++ asciiPart fmt bytes)

/-- Drive loop of `main`: consumes the input byte list, carrying the line
buffer, the running (unmasked) address, the current line start address and
the current format.  Produces the list of line records
`(buffer, line_addr, fmt)` that are handed to `print_buffer`, in order.
Flushing at a line boundary clears the buffer and resets `left_padding`. -/
def driveLoop : List Nat → List Nat → Nat → Nat → LineFormat →
    List (List Nat × Nat × LineFormat)
  | [], buf, _, la, fmt => if buf.isEmpty then [] else [(buf, la, fmt)]
  | b :: rest, buf, addr, la, fmt =>
    if (addr + 1) % fmt.bytes_per_line = 0 then
      (buf ++ [b], la, fmt) ::
        driveLoop rest [] (addr + 1) (addr + 1) { fmt with left_padding := 0 }
    else
      driveLoop rest (buf ++ [b]) (addr + 1) la fmt

/-- Initial layout configuration built by `main` from the `woz` flag and
the resolved starting address. -/
def mkFmt (woz : Bool) (addr : Nat) : LineFormat :=
  if woz then
    { bytes_per_line := WOZ_BYTES_PER_LINE,
      bytes_per_segment := WOZ_BYTES_PER_SEGMENT,
      left_padding := 0,
      show_ascii := false }
  else
    { bytes_per_line := STD_BYTES_PER_LINE,
      bytes_per_segment := STD_BYTES_PER_SEGMENT,
      left_padding := addr % STD_BYTES_PER_LINE,
      show_ascii := true }

deriving instance DecidableEq for Except

/-- Observable outcome of one program run: the dump lines written to
standard output (each `Option String`, `none` marking a formatter fault
that cannot actually occur), the diagnostic lines, and the I/O result. -/
structure RunOutput where
  stdout : List (Option String)
  stderr : List String
  result : Except String Unit
  deriving Repr, DecidableEq

/-- The read and print phase of `main`, starting from a resolved address
over the remaining (post origin) file bytes. -/
def dumpRun (addr : Nat) (woz : Bool) (bytes : List Nat) : RunOutput :=
  { stdout := (driveLoop bytes [] addr addr (mkFmt woz addr)).map
      (fun r => print_buffer r.1 r.2.1 r.2.2),
    stderr := [], result := .ok () }

/-- Model of `main`: origin resolution (including the derive from file
mode when the parsed origin is zero, which consumes two bytes via
`read_exact`), then the dump.  A parse failure returns `Ok(())` after the
diagnostic; a short `read_exact` is a propagated I/O error. -/
def runMain (origin : Option String) (woz : Bool) (file : List Nat) : RunOutput :=
  match origin with
  | none => dumpRun 0 woz file
  | some s =>
    match parse_hex s with
    | (.error _, msgs) => { stdout := [], stderr := msgs, result := .ok () }
    | (.ok a, _) =>
      if a = 0 then
        match file with
        | b0 :: b1 :: rest => dumpRun (b1 * 256 + b0) woz rest
        | _ => { stdout := [], stderr := [],
                 result := .error "failed to fill whole buffer" }
      else dumpRun a woz file

/-! ## Helper lemmas about the line formatter -/

/-- The hex slot loop never faults: the cursor `i` is only used to index
the buffer under the guard `i < bytes.length`. -/
theorem hexSlots_isSome (fmt : LineFormat) (bytes : List Nat) :
    ∀ (r pos i : Nat), (hexSlots fmt bytes r pos i).isSome := by
  intro r
  induction r with
  | zero => intro pos i; simp [hexSlots]
  | succ r ih =>
    intro pos i
    simp only [hexSlots]
    split
    · simp [Option.isSome_map, ih]
    · split
      · next h =>
        rw [List.get?_eq_get h]
        simp [Option.isSome_map, ih]
      · simp [Option.isSome_map, ih]

/-- The full line formatter never faults. -/
theorem print_buffer_isSome (bytes : List Nat) (la : Nat) (fmt : LineFormat) :
    (print_buffer bytes la fmt).isSome := by
  have h := hexSlots_isSome fmt bytes fmt.bytes_per_line 0 0
  unfold print_buffer
  cases hx : hexSlots fmt bytes fmt.bytes_per_line 0 0 with
  | none => rw [hx] at h; simp at h
  | some s => simp

/-- With no segmenting, no left padding and the ASCII column off, the hex
slot loop renders exactly one three character group per remaining byte
and nothing for the slots past the end of the buffer. -/
theorem hexSlots_no_ascii (fmt : LineFormat) (bytes : List Nat)
    (hseg : fmt.bytes_per_segment = 0) (hpad : fmt.left_padding = 0)
    (hascii : fmt.show_ascii = false) :
    ∀ (r pos i : Nat), bytes.length ≤ i + r →
      hexSlots fmt bytes r pos i =
        some ((bytes.drop i).foldr (fun b acc => " " ++ hex2 b ++ acc) "") := by
  intro r
  induction r with
  | zero =>
    intro pos i h
    rw [List.drop_eq_nil_of_le (by omega)]
    simp [hexSlots]
  | succ r ih =>
    intro pos i h
    simp only [hexSlots, hseg, hpad, hascii]
    rw [if_neg (by simp)]
    by_cases hi : i < bytes.length
    · rw [if_pos hi, List.get?_eq_get hi, ih (pos + 1) (i + 1) (by omega),
        List.drop_eq_getElem_cons hi]
      simp [List.foldr_cons, String.append_assoc, -List.getElem_cons_drop]
    · rw [if_neg hi, ih (pos + 1) i (by omega)]
      simp

theorem foldr_congr {α β : Type} (l : List α) (f g : α → β → β) (b : β)
    (h : ∀ a ∈ l, ∀ x, f a x = g a x) : l.foldr f b = l.foldr g b := by
  induction l with
  | nil => rfl
  | cons a l ih =>
    simp only [List.foldr_cons]
    rw [h a (by simp), ih (fun a ha x => h a (by simp [ha]) x)]

theorem hexSlots_ascii (fmt : LineFormat) (bytes : List Nat)
    (hascii : fmt.show_ascii = true) (hpad : fmt.left_padding = 0) :
    ∀ (r pos i : Nat),
      hexSlots fmt bytes r pos i =
        some ((List.range r).foldr (fun j acc =>
          (if 0 < fmt.bytes_per_segment ∧ (pos + j) % fmt.bytes_per_segment = 0
           then " " else "") ++
          (if i + j < bytes.length then " " ++ hex2 (bytes.getD (i + j) 0)
           else "   ") ++ acc) "") := by
  intro r
  induction r with
  | zero => intro pos i; simp [hexSlots]
  | succ r ih =>
    intro pos i
    rw [List.range_succ_eq_map, List.foldr_cons, List.foldr_map]
    simp only [hexSlots, hascii, hpad]
    by_cases hle : bytes.length ≤ i
    · rw [if_pos (Or.inr ⟨trivial, hle⟩), ih (pos + 1) i, Option.map_some']
      congr 1
      rw [if_neg (show ¬ i + 0 < bytes.length by omega)]
      congr 1
      exact foldr_congr _ _ _ _ (by
        intro j hj x
        rw [show pos + Nat.succ j = pos + 1 + j by omega,
            if_neg (show ¬ i + j < bytes.length by omega),
            if_neg (show ¬ i + Nat.succ j < bytes.length by omega)])
    · rw [if_neg (by simp [hle]), if_pos (by omega),
        List.get?_eq_get (show i < bytes.length by omega)]
      dsimp only
      rw [ih (pos + 1) (i + 1), Option.map_some']
      congr 1
      rw [if_pos (show i + 0 < bytes.length by omega)]
      have hgd : bytes.getD (i + 0) 0 = bytes.get ⟨i, by omega⟩ := by
        simp [List.getD, List.getElem?_eq_getElem (show i < bytes.length by omega)]
      rw [hgd, ← String.append_assoc]
      congr 1
      exact foldr_congr _ _ _ _ (by
        intro j hj x
        rw [show pos + Nat.succ j = pos + 1 + j by omega,
            show i + Nat.succ j = i + 1 + j by omega])

/-- Number of line records produced by the drive loop, in closed form:
one record per completed line boundary, plus one for a non empty final
buffer.  Stated for the two layouts the program builds (8 or 16 bytes
per line). -/
theorem driveLoop_length (input : List Nat) :
    ∀ (buf : List Nat) (addr la : Nat) (fmt : LineFormat),
      fmt.bytes_per_line = 8 ∨ fmt.bytes_per_line = 16 →
      (driveLoop input buf addr la fmt).length =
        (addr % fmt.bytes_per_line + input.length) / fmt.bytes_per_line +
        (if input.length = 0 then (if buf.isEmpty then 0 else 1)
         else if (addr + input.length) % fmt.bytes_per_line = 0 then 0 else 1) := by
  induction input with
  | nil =>
    intro buf addr la fmt hb
    rcases hb with hb | hb <;> rw [hb] <;> cases buf <;> simp [driveLoop]
  | cons b rest ih =>
    intro buf addr la fmt hb
    rcases hb with hb | hb
    · simp only [driveLoop, hb, List.length_cons]
      by_cases hc : (addr + 1) % 8 = 0
      · rw [if_pos hc, List.length_cons,
          ih [] (addr + 1) (addr + 1)
            ⟨8, fmt.bytes_per_segment, 0, fmt.show_ascii⟩ (Or.inl rfl)]
        dsimp only
        rw [if_pos List.isEmpty_nil]
        split_ifs <;> try contradiction
        all_goals omega
      · rw [if_neg hc, ih (buf ++ [b]) (addr + 1) la fmt (Or.inl hb), hb]
        rw [show (buf ++ [b]).isEmpty = false by simp]
        split_ifs <;> try contradiction
        all_goals omega
    · simp only [driveLoop, hb, List.length_cons]
      by_cases hc : (addr + 1) % 16 = 0
      · rw [if_pos hc, List.length_cons,
          ih [] (addr + 1) (addr + 1)
            ⟨16, fmt.bytes_per_segment, 0, fmt.show_ascii⟩ (Or.inr rfl)]
        dsimp only
        rw [if_pos List.isEmpty_nil]
        split_ifs <;> try contradiction
        all_goals omega
      · rw [if_neg hc, ih (buf ++ [b]) (addr + 1) la fmt (Or.inr hb), hb]
        rw [show (buf ++ [b]).isEmpty = false by simp]
        split_ifs <;> try contradiction
        all_goals omega

/-- Line start address of each record produced by the drive loop: the
first record keeps the pending line start `la`; every later record starts
at a multiple of `bytes_per_line` determined by the running address. -/
theorem driveLoop_addr (input : List Nat) :
    ∀ (buf : List Nat) (addr la : Nat) (fmt : LineFormat),
      fmt.bytes_per_line = 8 ∨ fmt.bytes_per_line = 16 →
      ∀ (j : Nat) (r : List Nat × Nat × LineFormat),
        (driveLoop input buf addr la fmt).get? j = some r →
        r.2.1 = if j = 0 then la
                else (addr / fmt.bytes_per_line + j) * fmt.bytes_per_line := by
  induction input with
  | nil =>
    intro buf addr la fmt hb j r hr
    by_cases hbuf : buf.isEmpty
    · simp [driveLoop, hbuf] at hr
    · rw [driveLoop, if_neg hbuf] at hr
      cases j with
      | zero => simp at hr; subst hr; simp
      | succ j => simp at hr
  | cons b rest ih =>
    intro buf addr la fmt hb
    rcases hb with hb | hb
    · simp only [driveLoop, hb]
      by_cases hc : (addr + 1) % 8 = 0
      · rw [if_pos hc]
        intro j r hr
        cases j with
        | zero => simp at hr; subst hr; simp
        | succ j =>
          rw [List.get?_cons_succ] at hr
          have hj := ih [] (addr + 1) (addr + 1)
            ⟨8, fmt.bytes_per_segment, 0, fmt.show_ascii⟩ (Or.inl rfl) j r hr
          dsimp only at hj
          rw [hj, if_neg (show ¬(j + 1 = 0) by omega)]
          by_cases h0 : j = 0
          · rw [if_pos h0, h0]
            omega
          · rw [if_neg h0]
            omega
      · rw [if_neg hc]
        intro j r hr
        have hj := ih (buf ++ [b]) (addr + 1) la fmt (Or.inl hb) j r hr
        rw [hj, hb]
        by_cases h0 : j = 0
        · rw [if_pos h0, if_pos h0]
        · rw [if_neg h0, if_neg h0]
          omega
    · simp only [driveLoop, hb]
      by_cases hc : (addr + 1) % 16 = 0
      · rw [if_pos hc]
        intro j r hr
        cases j with
        | zero => simp at hr; subst hr; simp
        | succ j =>
          rw [List.get?_cons_succ] at hr
          have hj := ih [] (addr + 1) (addr + 1)
            ⟨16, fmt.bytes_per_segment, 0, fmt.show_ascii⟩ (Or.inr rfl) j r hr
          dsimp only at hj
          rw [hj, if_neg (show ¬(j + 1 = 0) by omega)]
          by_cases h0 : j = 0
          · rw [if_pos h0, h0]
            omega
          · rw [if_neg h0]
            omega
      · rw [if_neg hc]
        intro j r hr
        have hj := ih (buf ++ [b]) (addr + 1) la fmt (Or.inr hb) j r hr
        rw [hj, hb]
        by_cases h0 : j = 0
        · rw [if_pos h0, if_pos h0]
        · rw [if_neg h0, if_neg h0]
          omega

/-- Every record the drive loop produces from a format whose
`left_padding` is already zero also carries `left_padding` zero. -/
theorem driveLoop_pad_all (input : List Nat) :
    ∀ (buf : List Nat) (addr la : Nat) (fmt : LineFormat),
      fmt.left_padding = 0 →
      ∀ (j : Nat) (r : List Nat × Nat × LineFormat),
        (driveLoop input buf addr la fmt).get? j = some r →
        r.2.2.left_padding = 0 := by
  induction input with
  | nil =>
    intro buf addr la fmt hp j r hr
    by_cases hbuf : buf.isEmpty
    · simp [driveLoop, hbuf] at hr
    · rw [driveLoop, if_neg hbuf] at hr
      cases j with
      | zero => simp at hr; subst hr; exact hp
      | succ j => simp at hr
  | cons b rest ih =>
    intro buf addr la fmt hp j r hr
    rw [driveLoop] at hr
    split at hr
    · cases j with
      | zero => simp at hr; subst hr; exact hp
      | succ j =>
        rw [List.get?_cons_succ] at hr
        exact ih [] _ _ { fmt with left_padding := 0 } rfl j r hr
    · exact ih (buf ++ [b]) _ _ fmt hp j r hr

/-- Every record after the first carries `left_padding = 0`: the drive
loop resets the padding at the first line boundary and it never comes
back. -/
theorem driveLoop_pad_tail (input : List Nat) :
    ∀ (buf : List Nat) (addr la : Nat) (fmt : LineFormat) (j : Nat)
      (r : List Nat × Nat × LineFormat),
      (driveLoop input buf addr la fmt).get? (j + 1) = some r →
      r.2.2.left_padding = 0 := by
  induction input with
  | nil =>
    intro buf addr la fmt j r hr
    by_cases hbuf : buf.isEmpty
    · simp [driveLoop, hbuf] at hr
    · rw [driveLoop, if_neg hbuf] at hr
      simp at hr
  | cons b rest ih =>
    intro buf addr la fmt j r hr
    rw [driveLoop] at hr
    split at hr
    · rw [List.get?_cons_succ] at hr
      exact driveLoop_pad_all rest [] _ _ { fmt with left_padding := 0 } rfl j r hr
    · exact ih (buf ++ [b]) _ _ fmt j r hr

/-- The first record produced by the drive loop carries the format the
loop started with. -/
theorem driveLoop_head_fmt (input : List Nat) :
    ∀ (buf : List Nat) (addr la : Nat) (fmt : LineFormat)
      (r : List Nat × Nat × LineFormat),
      (driveLoop input buf addr la fmt).get? 0 = some r →
      r.2.2 = fmt := by
  induction input with
  | nil =>
    intro buf addr la fmt r hr
    by_cases hbuf : buf.isEmpty
    · simp [driveLoop, hbuf] at hr
    · rw [driveLoop, if_neg hbuf] at hr
      simp at hr
      subst hr
      rfl
  | cons b rest ih =>
    intro buf addr la fmt r hr
    rw [driveLoop] at hr
    split at hr
    · simp at hr
      subst hr
      rfl
    · exact ih (buf ++ [b]) _ _ fmt r hr

/-! ## Claim theorems -/

/-- Claim C1, amended (the original formula ignores origin misalignment):
for the dump phase over the remaining `bytes` (the file minus any origin
bytes), zero lines are emitted when no bytes remain, and otherwise the
number of emitted lines is `ceil((addr mod bytes_per_line + L') /
bytes_per_line)`, which reduces to `ceil(L' / bytes_per_line)` exactly
when the starting address is a multiple of `bytes_per_line`. -/
theorem c1_line_count (woz : Bool) (addr : Nat) (bytes : List Nat) :
    (dumpRun addr woz bytes).stdout.length =
      if bytes.length = 0 then 0
      else (addr % (if woz then WOZ_BYTES_PER_LINE else STD_BYTES_PER_LINE)
            + bytes.length
            + ((if woz then WOZ_BYTES_PER_LINE else STD_BYTES_PER_LINE) - 1))
           / (if woz then WOZ_BYTES_PER_LINE else STD_BYTES_PER_LINE) := by
  have hb : (mkFmt woz addr).bytes_per_line = 8 ∨ (mkFmt woz addr).bytes_per_line = 16 := by
    cases woz
    · right; rfl
    · left; rfl
  unfold dumpRun
  rw [List.length_map, driveLoop_length bytes [] addr addr (mkFmt woz addr) hb]
  cases woz
  · simp only [mkFmt, if_neg (Bool.false_ne_true), STD_BYTES_PER_LINE, Bool.false_eq_true,
      if_false]
    split_ifs <;> try contradiction
    all_goals omega
  · simp only [mkFmt, if_pos rfl, WOZ_BYTES_PER_LINE, if_true]
    split_ifs <;> try contradiction
    all_goals omega

/-- Claim C1 counterexample: with origin `1` (standard layout), a 16 byte
file produces 2 output lines, while the claimed formula
`ceil(L' / bytes_per_line)` predicts `ceil(16/16) = 1`: the first line is
shortened to reach the 16 byte address boundary. -/
theorem c1_counterexample :
    (runMain (some "1") false (List.replicate 16 0)).stdout.length = 2 ∧
    (16 + (16 - 1)) / 16 = 1 := by
  constructor
  · rfl
  · rfl

/-- Claim C2, amended (the original `A + k*bytes_per_line` formula ignores
origin misalignment): line record `k` of the dump keeps the unmasked
internal address `A` for `k = 0` and `(A / bpl + k) * bpl` for `k > 0`
(the k-th line boundary at or above `A`); the emitted line `k` is the
rendering of that record, and its header is the 4 hex digit rendering of
the record address reduced mod 65536 — the mask is applied only inside
`print_buffer`, never to the record address itself. -/
theorem c2_line_addresses (woz : Bool) (A : Nat) (bytes : List Nat) (k : Nat)
    (r : List Nat × Nat × LineFormat)
    (hr : (driveLoop bytes [] A A (mkFmt woz A)).get? k = some r) :
    r.2.1 = (if k = 0 then A
             else (A / (mkFmt woz A).bytes_per_line + k) * (mkFmt woz A).bytes_per_line) ∧
    (dumpRun A woz bytes).stdout.get? k = some (print_buffer r.1 r.2.1 r.2.2) ∧
    ∃ rest, print_buffer r.1 r.2.1 r.2.2 =
      some (hex4 (r.2.1 % 65536) ++ ":" ++ rest) := by
  have hb : (mkFmt woz A).bytes_per_line = 8 ∨ (mkFmt woz A).bytes_per_line = 16 := by
    cases woz
    · right; rfl
    · left; rfl
  refine ⟨driveLoop_addr bytes [] A A (mkFmt woz A) hb k r hr, ?_, ?_⟩
  · unfold dumpRun
    simp only [List.get?_map, hr, Option.map_some']
  · have hs := hexSlots_isSome r.2.2 r.1 r.2.2.bytes_per_line 0 0
    rw [Option.isSome_iff_exists] at hs
    obtain ⟨hexes, hx⟩ := hs
    refine ⟨hexes ++ asciiPart r.2.2 r.1, ?_⟩
    unfold print_buffer
    rw [hx]
    dsimp only
    exact congrArg some
      (String.append_assoc (hex4 (r.2.1 % 65536) ++ ":") hexes (asciiPart r.2.2 r.1))

/-- Claim C2 counterexample: with origin `1` and the standard layout, line
index 1 of a 17 byte file is headed `0010:` (the boundary address 16),
not `0011:` (the claimed `(1 + 1*16) mod 65536 = 17`). -/
theorem c2_counterexample :
    (((runMain (some "1") false (List.replicate 17 0)).stdout.getD 1 none).getD "").take 5
      = "0010:" ∧
    hex4 ((1 + 1 * 16) % 65536) ++ ":" = "0011:" := by
  constructor
  · rfl
  · rfl

/-- Claim C2 witness: starting address 70000 (aligned, above 2^16), the
second line record of a 17 byte dump holds the unmasked internal address
70016 and renders it masked. -/
theorem c2_line_addresses_witness :
    (driveLoop (List.replicate 17 0) [] 70000 70000 (mkFmt false 70000)).get? 1 =
      some ([0], 70016,
        ({ bytes_per_line := 16, bytes_per_segment := 8, left_padding := 0,
           show_ascii := true } : LineFormat)) ∧
    (([0], 70016,
        ({ bytes_per_line := 16, bytes_per_segment := 8, left_padding := 0,
           show_ascii := true } : LineFormat)) : List Nat × Nat × LineFormat).2.1 =
      (if (1 : Nat) = 0 then 70000
       else (70000 / (mkFmt false 70000).bytes_per_line + 1) *
         (mkFmt false 70000).bytes_per_line) ∧
    ∃ rest, print_buffer [0] 70016
        ({ bytes_per_line := 16, bytes_per_segment := 8, left_padding := 0,
           show_ascii := true } : LineFormat) =
      some (hex4 (70016 % 65536) ++ ":" ++ rest) := by
  have h := c2_line_addresses false 70000 (List.replicate 17 0) 1
    ([0], 70016,
      ({ bytes_per_line := 16, bytes_per_segment := 8, left_padding := 0,
         show_ascii := true } : LineFormat)) (by decide)
  exact ⟨by decide, h.1, h.2.2⟩

/-- Claim C3 counterexample: the origin string is not parsed as a 16 bit
integer: `"10000"` (five hex digits, value 65536, outside 16 bits) parses
successfully, is accepted without any diagnostic, and the dump is
produced with the full (unreduced) value as starting address. -/
theorem c3_counterexample :
    from_str_radix16 "10000" = .ok 65536 ∧ 0xFFFF < 65536 ∧
    (runMain (some "10000") false [65]).stderr = [] ∧
    (runMain (some "10000") false [65]).result = .ok () ∧
    (runMain (some "10000") false [65]).stdout.length = 1 := by
  refine ⟨by decide, by decide, rfl, rfl, rfl⟩

/-- Claim C3, amended: the origin string is parsed as a machine word
width (`usize`) hexadecimal integer, so values above `0xFFFF` are
accepted and only reduced mod 2^16 at display time.  A successful
nonzero parse makes the parsed value the starting address with no file
bytes consumed; a parse failure (e.g. non hex characters) reports a
diagnostic naming the input and aborts with no dump output. -/
theorem c3_origin_parse (s : String) (woz : Bool) (file : List Nat) :
    (∀ a, from_str_radix16 s = .ok a → a ≠ 0 →
       runMain (some s) woz file = dumpRun a woz file) ∧
    (∀ e, from_str_radix16 s = .error e →
       (runMain (some s) woz file).stdout = [] ∧
       (runMain (some s) woz file).stderr = [errLine s e] ∧
       (runMain (some s) woz file).result = .ok ()) := by
  constructor
  · intro a ha h0
    simp [runMain, parse_hex, ha, h0]
  · intro e he
    simp [runMain, parse_hex, he]

/-- Claim C3 witness: origin `"1F"` parses to 31 and the dump starts at
address 31 over the whole file. -/
theorem c3_origin_parse_witness :
    from_str_radix16 "1F" = .ok 31 ∧
    runMain (some "1F") false [7] = dumpRun 31 false [7] ∧
    (runMain (some "zz") false [7]).stdout = [] :=
  ⟨by decide, (c3_origin_parse "1F" false [7]).1 31 (by decide) (by decide),
    ((c3_origin_parse "zz" false [7]).2 .invalidDigit (by decide)).1⟩

/-- Claim C4 (confirmed): when the origin string does not parse, the run
prints one diagnostic line naming the offending input and the underlying
parse failure, produces no dump output, and returns the success result —
independently of the file contents, which are never read. -/
theorem c4_parse_error_clean_exit (s : String) (woz : Bool) (e : ParseIntError)
    (he : from_str_radix16 s = .error e) (file : List Nat) :
    runMain (some s) woz file =
      { stdout := [],
        stderr := ["Invalid hexadecimal value \"" ++ s ++ "\": " ++ e.describe],
        result := .ok () } := by
  simp [runMain, parse_hex, he, errLine]

/-- Claim C4 witness: origin `"zz"` fails with an invalid digit
diagnostic and a clean exit, for any file. -/
theorem c4_parse_error_clean_exit_witness :
    from_str_radix16 "zz" = .error .invalidDigit ∧
    runMain (some "zz") false [1, 2, 3] =
      { stdout := [],
        stderr := ["Invalid hexadecimal value \"zz\": invalid digit found in string"],
        result := .ok () } :=
  ⟨by decide,
    (c4_parse_error_clean_exit "zz" false .invalidDigit (by decide) [1, 2, 3]).trans
      (by decide)⟩

/-- Claim C5 (confirmed): with origin `"0"`, exactly two bytes are taken
from the front of the stream, the starting address is
`byte[1] * 256 + byte[0]`, and the dump covers only the remaining bytes
(the two origin bytes are not re displayed); a stream with fewer than
two bytes is a propagated I/O error with no dump output. -/
theorem c5_derive_origin (woz : Bool) (b0 b1 : Nat) (rest file : List Nat) :
    runMain (some "0") woz (b0 :: b1 :: rest) = dumpRun (b1 * 256 + b0) woz rest ∧
    (file.length < 2 →
      (runMain (some "0") woz file).stdout = [] ∧
      (runMain (some "0") woz file).result = .error "failed to fill whole buffer") := by
  constructor
  · rfl
  · intro hf
    cases file with
    | nil => exact ⟨rfl, rfl⟩
    | cons x xs =>
      cases xs with
      | nil => exact ⟨rfl, rfl⟩
      | cons y ys =>
        simp at hf
        omega

/-- Claim C5 witness: a file beginning `0x34 0x12` dumps from address
`0x1234` starting at its third byte; a one byte file is an I/O error. -/
theorem c5_derive_origin_witness :
    runMain (some "0") false [52, 18, 1] = dumpRun (18 * 256 + 52) false [1] ∧
    (runMain (some "0") false [9]).stdout = [] ∧
    (runMain (some "0") false [9]).result = .error "failed to fill whole buffer" :=
  ⟨(c5_derive_origin false 52 18 [1] [9]).1,
    ((c5_derive_origin false 52 18 [1] [9]).2 (by decide)).1,
    ((c5_derive_origin false 52 18 [1] [9]).2 (by decide)).2⟩

/-- Rendering equation for `print_buffer` once the hex slot loop value is
known. -/
theorem print_buffer_eq (bytes : List Nat) (la : Nat) (fmt : LineFormat)
    (hexes : String)
    (hx : hexSlots fmt bytes fmt.bytes_per_line 0 0 = some hexes) :
    print_buffer bytes la fmt =
      some (hex4 (la % 65536) ++ ":" ++ hexes ++ asciiPart fmt bytes) := by
  unfold print_buffer
  rw [hx]

/-- Claim C6 (confirmed): for a final line shorter than the line width,
the wozmon layout renders one ` XX` group per real byte and nothing for
the slots past the last byte (a shorter line), while the standard layout
renders all 16 slot positions, emitting a three blank padding group for
every position past the last real byte. -/
theorem c6_short_final_line (bytes : List Nat) (la : Nat) (h1 : 1 ≤ bytes.length) :
    (bytes.length < WOZ_BYTES_PER_LINE →
      print_buffer bytes la (mkFmt true 0) =
        some (hex4 (la % 65536) ++ ":" ++
          bytes.foldr (fun b acc => " " ++ hex2 b ++ acc) "")) ∧
    (bytes.length < STD_BYTES_PER_LINE →
      print_buffer bytes la (mkFmt false 0) =
        some (hex4 (la % 65536) ++ ":" ++
          (List.range STD_BYTES_PER_LINE).foldr (fun pos acc =>
            (if pos % STD_BYTES_PER_SEGMENT = 0 then " " else "") ++
            (if pos < bytes.length then " " ++ hex2 (bytes.getD pos 0) else "   ") ++
            acc) "" ++
          asciiPart (mkFmt false 0) bytes)) := by
  constructor
  · intro hw
    have hfmt : mkFmt true 0 = ⟨8, 0, 0, false⟩ := rfl
    rw [hfmt, print_buffer_eq bytes la ⟨8, 0, 0, false⟩ _
      (hexSlots_no_ascii ⟨8, 0, 0, false⟩ bytes rfl rfl rfl 8 0 0
        (by simpa [WOZ_BYTES_PER_LINE] using Nat.le_of_lt hw))]
    rw [List.drop_zero]
    have hap : asciiPart ⟨8, 0, 0, false⟩ bytes = "" := rfl
    rw [hap]
    simp
  · intro hs
    have hfmt : mkFmt false 0 = ⟨16, 8, 0, true⟩ := rfl
    rw [hfmt, print_buffer_eq bytes la ⟨16, 8, 0, true⟩ _
      (hexSlots_ascii ⟨16, 8, 0, true⟩ bytes rfl rfl 16 0 0)]
    refine congrArg some ?_
    refine congrArg (fun t => t ++ asciiPart ⟨16, 8, 0, true⟩ bytes) ?_
    refine congrArg (fun t => hex4 (la % 65536) ++ ":" ++ t) ?_
    refine foldr_congr _ _ _ _ ?_
    intro j hj x
    simp only [Nat.zero_add]
    have hseg : (0 < 8 ∧ j % 8 = 0) ↔ j % 8 = 0 := by
      constructor
      · exact fun h => h.2
      · exact fun h => ⟨by omega, h⟩
    rw [if_congr hseg rfl rfl]
    rfl

/-- Claim C6 witness: a two byte final line at address 0 in both
layouts. -/
theorem c6_short_final_line_witness :
    print_buffer [65, 66] 0 (mkFmt true 0) =
      some (hex4 (0 % 65536) ++ ":" ++
        ([65, 66] : List Nat).foldr (fun b acc => " " ++ hex2 b ++ acc) "") ∧
    print_buffer [65, 66] 0 (mkFmt false 0) =
      some (hex4 (0 % 65536) ++ ":" ++
        (List.range STD_BYTES_PER_LINE).foldr (fun pos acc =>
          (if pos % STD_BYTES_PER_SEGMENT = 0 then " " else "") ++
          (if pos < ([65, 66] : List Nat).length
           then " " ++ hex2 (([65, 66] : List Nat).getD pos 0) else "   ") ++
          acc) "" ++
        asciiPart (mkFmt false 0) [65, 66]) :=
  ⟨(c6_short_final_line [65, 66] 0 (by decide)).1 (by decide),
   (c6_short_final_line [65, 66] 0 (by decide)).2 (by decide)⟩

/-- Claim C7 (confirmed): with the ASCII column on, the rendered line is
the header, the hex slots, then exactly `left_padding + 2` separator
spaces, then one character per real byte in order — the byte itself for
values in [0x20, 0x7E] inclusive, a dot otherwise — and no characters
for padding slots. -/
theorem c7_ascii_column (bytes : List Nat) (la : Nat) (fmt : LineFormat)
    (h : fmt.show_ascii = true) :
    ∃ hexpart, print_buffer bytes la fmt =
      some (hex4 (la % 65536) ++ ":" ++ hexpart ++
        (String.mk (List.replicate (fmt.left_padding + 2) ' ') ++
         String.mk (bytes.map (fun b =>
           if 0x20 ≤ b ∧ b ≤ 0x7E then Char.ofNat b else '.')))) := by
  have hso := hexSlots_isSome fmt bytes fmt.bytes_per_line 0 0
  rw [Option.isSome_iff_exists] at hso
  obtain ⟨hexes, hx⟩ := hso
  refine ⟨hexes, ?_⟩
  rw [print_buffer_eq bytes la fmt hexes hx]
  refine congrArg some ?_
  refine congrArg (fun t => hex4 (la % 65536) ++ ":" ++ hexes ++ t) ?_
  unfold asciiPart
  rw [if_pos h]
  refine congrArg (fun t => String.mk (List.replicate (fmt.left_padding + 2) ' ') ++ t) ?_
  refine congrArg String.mk ?_
  have hchar : asciiChar = fun b : Nat =>
      if 0x20 ≤ b ∧ b ≤ 0x7E then Char.ofNat b else '.' := by
    funext b
    unfold asciiChar
    exact if_congr (by omega) rfl rfl
  rw [hchar]

/-- Claim C7 witness: a printable byte and a non printable byte in the
standard layout. -/
theorem c7_ascii_column_witness :
    ∃ hexpart, print_buffer [65, 200] 0 (mkFmt false 0) =
      some (hex4 (0 % 65536) ++ ":" ++ hexpart ++
        (String.mk (List.replicate ((mkFmt false 0).left_padding + 2) ' ') ++
         String.mk (([65, 200] : List Nat).map (fun b =>
           if 0x20 ≤ b ∧ b ≤ 0x7E then Char.ofNat b else '.')))) :=
  c7_ascii_column [65, 200] 0 (mkFmt false 0) rfl

/-- Claim C8 (confirmed): `left_padding` is set once from the origin —
`addr mod 16` for the standard layout, always 0 for wozmon — and is reset
to zero at every line boundary flush, so the first line record carries
the origin derived padding and every later record carries zero. -/
theorem c8_left_padding_lifecycle (woz : Bool) (A : Nat) (bytes : List Nat) :
    (∀ r, (driveLoop bytes [] A A (mkFmt woz A)).get? 0 = some r →
       r.2.2.left_padding = if woz then 0 else A % STD_BYTES_PER_LINE) ∧
    (∀ j r, (driveLoop bytes [] A A (mkFmt woz A)).get? (j + 1) = some r →
       r.2.2.left_padding = 0) := by
  constructor
  · intro r hr
    rw [driveLoop_head_fmt bytes [] A A (mkFmt woz A) r hr]
    cases woz
    · simp [mkFmt]
    · simp [mkFmt]
  · intro j r hr
    exact driveLoop_pad_tail bytes [] A A (mkFmt woz A) j r hr

/-- Claim C8 witness: origin 5, standard layout, 20 bytes: the first
record carries padding 5, the second padding 0. -/
theorem c8_left_padding_lifecycle_witness :
    (driveLoop (List.replicate 20 7) [] 5 5 (mkFmt false 5)).get? 0 =
      some (List.replicate 11 7, 5,
        ({ bytes_per_line := 16, bytes_per_segment := 8, left_padding := 5,
           show_ascii := true } : LineFormat)) ∧
    ((List.replicate 11 7, 5,
        ({ bytes_per_line := 16, bytes_per_segment := 8, left_padding := 5,
           show_ascii := true } : LineFormat)) :
      List Nat × Nat × LineFormat).2.2.left_padding =
      (if false then 0 else 5 % STD_BYTES_PER_LINE) ∧
    (driveLoop (List.replicate 20 7) [] 5 5 (mkFmt false 5)).get? 1 =
      some (List.replicate 9 7, 16,
        ({ bytes_per_line := 16, bytes_per_segment := 8, left_padding := 0,
           show_ascii := true } : LineFormat)) ∧
    ((List.replicate 9 7, 16,
        ({ bytes_per_line := 16, bytes_per_segment := 8, left_padding := 0,
           show_ascii := true } : LineFormat)) :
      List Nat × Nat × LineFormat).2.2.left_padding = 0 :=
  ⟨by decide,
   (c8_left_padding_lifecycle false 5 (List.replicate 20 7)).1 _ (by decide),
   by decide,
   (c8_left_padding_lifecycle false 5 (List.replicate 20 7)).2 0 _ (by decide)⟩

/-- Claim C9 (confirmed): the line formatter is total — for every buffer
of length between 1 and `bytes_per_line` and every configuration it
produces a text line; in particular the byte buffer indexing inside the
hex slot loop never goes out of bounds (the `Option` valued embedding
never returns `none`). -/
theorem c9_formatter_total (bytes : List Nat) (la : Nat) (fmt : LineFormat)
    (h1 : 1 ≤ bytes.length) (h2 : bytes.length ≤ fmt.bytes_per_line) :
    ∃ line, print_buffer bytes la fmt = some line := by
  have hso := print_buffer_isSome bytes la fmt
  rw [Option.isSome_iff_exists] at hso
  exact hso

/-- Claim C9 witness: a one byte buffer in the wozmon configuration. -/
theorem c9_formatter_total_witness :
    ∃ line, print_buffer [0] 0 (mkFmt true 0) = some line :=
  c9_formatter_total [0] 0 (mkFmt true 0) (by decide) (by decide)

/-- Claim C10 (confirmed): the derive from file origin mode is triggered
by the parsed value, not the literal spelling — any origin string that
parses to zero behaves exactly like the literal string `"0"`. -/
theorem c10_zero_parse_derive (s : String) (woz : Bool) (file : List Nat)
    (h : from_str_radix16 s = .ok 0) :
    runMain (some s) woz file = runMain (some "0") woz file := by
  have h0 : from_str_radix16 "0" = .ok 0 := rfl
  simp [runMain, parse_hex, h, h0]

/-- Claim C10 witness: origin strings `"00"` and `"0000"` behave like
`"0"`. -/
theorem c10_zero_parse_derive_witness :
    from_str_radix16 "00" = .ok 0 ∧
    runMain (some "00") false [52, 18, 9] = runMain (some "0") false [52, 18, 9] ∧
    runMain (some "0000") true [52, 18, 9] = runMain (some "0") true [52, 18, 9] :=
  ⟨by decide, c10_zero_parse_derive "00" false [52, 18, 9] (by decide),
   c10_zero_parse_derive "0000" true [52, 18, 9] (by decide)⟩

end Hexam
